import Mathlib

/-!
Shallow embedding of the rating processor (`ratings/processor.py` together with the
database field names from `database/db_tools.py`) of the alcoding leaderboard
repository, and proofs about it.

Conventions of the embedding:
* Python floats are modelled as exact rationals (`ℚ`).
* A Python `dict` built by insertion is modelled as an insertion-ordered association
  list (`List (String × Nat)`): inserting an existing key updates its value in place,
  inserting a fresh key appends, lookup finds the (unique) entry for a key.
* The TinyDB player table is modelled as a list of `Player` records; iteration order
  of `database.all()` is the list order.
* The rating-math module `ratings/elo.py` is not part of the inspected source tree,
  so `elo.process` is an arbitrary function parameter (`EloFn`) and the calibration
  factor `elo.Cf` is modelled from the specification (see `CfSpec`).
-/

/-- Player record as stored in the database: the required fields of
`database/db_tools.py` (`usn`, `rating`, `volatility`, `timesPlayed`, `best`,
`lastFive`); all remaining document keys (name, email, year, per-platform handles)
are collected untouched in `extra`. -/
@[ext]
structure Player where
  usn : String
  rating : ℚ
  volatility : ℚ
  timesPlayed : Nat
  best : ℚ
  lastFive : Int
  extra : List (String × String)
  deriving DecidableEq

/-- Helper for `pySplit`: scans the character list, accumulating the current
(reversed) token in `acc`, emitting a token at each maximal non-whitespace run. -/
def splitWsAux : List Char → List Char → List String
  | [], acc => if acc.isEmpty then [] else [String.mk acc.reverse]
  | c :: cs, acc =>
    if c.isWhitespace then
      if acc.isEmpty then splitWsAux cs [] else String.mk acc.reverse :: splitWsAux cs []
    else splitWsAux cs (c :: acc)

/-- Python `str.split()` with no arguments, as used in `read_contest_ranks`:
the maximal whitespace-separated tokens of the string, with no empty tokens. -/
def pySplit (s : String) : List String :=
  splitWsAux s.data []

/-- Lookup in a Python dict modelled as an insertion-ordered association list. -/
def dictLookup : List (String × Nat) → String → Option Nat
  | [], _ => none
  | kv :: rest, k => if kv.1 = k then some kv.2 else dictLookup rest k

/-- Python dict assignment `d[k] = v`: update the value in place when the key is
present, otherwise append the new binding. -/
def dictInsert : List (String × Nat) → String → Nat → List (String × Nat)
  | [], k, v => [(k, v)]
  | kv :: rest, k, v => if kv.1 = k then (k, v) :: rest else kv :: dictInsert rest k v

/-- Inner loop of `RatingProcessor.read_contest_ranks`: assign `current_rank` to
every usn of one line of the rank file. -/
def readLineRanks (m : List (String × Nat)) (usns : List String) (r : Nat) : List (String × Nat) :=
  usns.foldl (fun acc u => dictInsert acc u r) m

/-- Loop of `RatingProcessor.read_contest_ranks` over the lines of the rank file,
carrying the dict built so far and `current_rank`. -/
def readContestRanksAux : List String → List (String × Nat) → Nat → List (String × Nat)
  | [], m, _ => m
  | line :: rest, m, r =>
    readContestRanksAux rest (readLineRanks m (pySplit line) r) (r + (pySplit line).length)

/-- `RatingProcessor.read_contest_ranks`: builds `usn_rank_dict` from the rank file,
starting from the empty dict with `current_rank = 1`; after each line the rank
advances by the number of usns on that line. -/
def readContestRanks (lines : List String) : List (String × Nat) :=
  readContestRanksAux lines [] 1

/-- Specification-side transcription of the rank-assignment rule (for the refinement
proof of the parser): with the current tier starting at `base`, an identifier `u` is
ranked by its last occurrence; a line of `k` identifiers occupies ranks `base` and
moves the next tier to `base + k`; empty lines contribute `k = 0` and so are skipped
without advancing the rank; the first tier starts at `base = 1`. -/
def specRankFrom : List String → Nat → String → Option Nat
  | [], _, _ => none
  | line :: rest, base, u =>
    match specRankFrom rest (base + (pySplit line).length) u with
    | some r => some r
    | none => if u ∈ pySplit line then some base else none

/-- First-some choice on options, used to state the parser refinement. -/
def optOr : Option Nat → Option Nat → Option Nat
  | some v, _ => some v
  | none, b => b

/-- Signature of `elo.process(old_rating, old_volatility, times_played, actual_rank,
Rb_Vb_list, N, Cf)`; the function itself lives in the uninspected module
`ratings/elo.py`, so it is kept as an arbitrary parameter throughout. -/
abbrev EloFn : Type :=
  ℚ → ℚ → Nat → Nat → List (ℚ × ℚ) → Nat → ℚ → ℚ × ℚ

/-- Signature of `elo.Cf(rating_list, vol_list, N)` in the case `N > 0`. -/
abbrev CfFn : Type :=
  List ℚ → List ℚ → Nat → ℚ

/-- Modelled from the spec: the calibrator `elo.Cf` of `ratings/elo.py` is not in the
inspected source tree; only its call `elo.Cf(rating_list, vol_list, N)` is. Per the
specification it is a deterministic scalar function of the rating list, the
volatility list and the field size `N`, and it fails (EmptyField) when `N = 0`; the
positive case is an arbitrary `CfFn` parameter. -/
def CfSpec (cfPos : CfFn) (ratingList volList : List ℚ) (N : Nat) : Option ℚ :=
  if N = 0 then none else some (cfPos ratingList volList N)

/-- `RatingProcessor._decay_player`: for `times_played > 0` decrement `last_five`;
when the decremented value is 0, multiply the rating by 0.99 and reset `last_five`
to 5. The record is written back with `rating` and with `max 1 last_five`; every
other key is untouched. -/
def decayPlayer (p : Player) : Player :=
  let rl : ℚ × Int :=
    if 0 < p.timesPlayed then
      if p.lastFive - 1 = 0 then (p.rating * (99 / 100), 5) else (p.rating, p.lastFive - 1)
    else (p.rating, p.lastFive)
  { p with rating := rl.1, lastFive := max 1 rl.2 }

/-- `RatingProcessor._update_player`: store the rating and volatility computed by
`elo.process`, increment `timesPlayed`, raise `best` to the new rating when it
improves, and reset `lastFive` to 5; every other key is untouched. -/
def updatePlayer (e : EloFn) (RbVb : List (ℚ × ℚ)) (N : Nat) (cf : ℚ) (p : Player)
    (actualRank : Nat) : Player :=
  let res := e p.rating p.volatility p.timesPlayed actualRank RbVb N cf
  { p with rating := res.1, volatility := res.2, timesPlayed := p.timesPlayed + 1,
           best := max p.best res.1, lastFive := 5 }

/-- Filtering step of `RatingProcessor.set_contest_details`: every usn of
`usn_rank_dict` without a matching stored player is popped (and logged); the
surviving entries keep their dict order. -/
def filteredMap (db : List Player) (m : List (String × Nat)) : List (String × Nat) :=
  m.filter (fun kv => db.any (fun p => p.usn == kv.1))

/-- `database.search(where(USN).test(lambda x: x in self.usn_rank_dict))`: the stored
players whose usn is a key of the filtered rank dict, in database order. -/
def participantsOf (db : List Player) (fm : List (String × Nat)) : List Player :=
  db.filter (fun p => fm.any (fun kv => kv.1 == p.usn))

/-- Filtered `usn_rank_dict` of the contest built from `db` and the rank file. -/
def contestMap (db : List Player) (rankFile : List String) : List (String × Nat) :=
  filteredMap db (readContestRanks rankFile)

/-- Participants of the contest (stored players matched by the filtered rank dict). -/
def contestParticipants (db : List Player) (rankFile : List String) : List Player :=
  participantsOf db (contestMap db rankFile)

/-- `rating_list` of `set_contest_details`. -/
def ratingListOf (db : List Player) (rankFile : List String) : List ℚ :=
  (contestParticipants db rankFile).map Player.rating

/-- `vol_list` of `set_contest_details`. -/
def volListOf (db : List Player) (rankFile : List String) : List ℚ :=
  (contestParticipants db rankFile).map Player.volatility

/-- `self.N`: the number of entries left in `usn_rank_dict` after filtering. -/
def contestN (db : List Player) (rankFile : List String) : Nat :=
  (contestMap db rankFile).length

/-- `self.Rb_Vb_list = list(zip(rating_list, vol_list))`. -/
def contestRbVb (db : List Player) (rankFile : List String) : List (ℚ × ℚ) :=
  (ratingListOf db rankFile).zip (volListOf db rankFile)

/-- Value of `self.Cf` in the non-empty case, as the abstract calibrator sees it. -/
def contestCf (cfPos : CfFn) (db : List Player) (rankFile : List String) : ℚ :=
  cfPos (ratingListOf db rankFile) (volListOf db rankFile) (contestN db rankFile)

/-- Body of the loop of `RatingProcessor.process_competition`: a stored row is
rated when its usn is in the filtered rank dict and decayed otherwise. -/
def stepPlayer (e : EloFn) (fm : List (String × Nat)) (RbVb : List (ℚ × ℚ)) (N : Nat)
    (cf : ℚ) (row : Player) : Player :=
  match dictLookup fm row.usn with
  | some r => updatePlayer e RbVb N cf row r
  | none => decayPlayer row

/-- `RatingProcessor.process_competition`: iterate over `database.all()` replacing
each row by its updated or decayed version; `write_back` commits the whole list. -/
def processCompetition (e : EloFn) (fm : List (String × Nat)) (RbVb : List (ℚ × ℚ))
    (N : Nat) (cf : ℚ) : List Player → List Player
  | [] => []
  | row :: rest => stepPlayer e fm RbVb N cf row :: processCompetition e fm RbVb N cf rest

/-- `RatingProcessor.__init__`: the whole contest run — parse the rank file, filter
it against the stored players, compute `N`, `Cf` and `Rb_Vb_list` once, then process
the competition. A failure of the calibrator (the `N = 0` case of `CfSpec`)
propagates: no list of updated rows is produced at all. -/
def processContest (cfPos : CfFn) (e : EloFn) (db : List Player) (rankFile : List String) :
    Option (List Player) :=
  match CfSpec cfPos (ratingListOf db rankFile) (volListOf db rankFile) (contestN db rankFile) with
  | none => none
  | some cf =>
    some (processCompetition e (contestMap db rankFile) (contestRbVb db rankFile)
      (contestN db rankFile) cf db)

/-- Outcome of one invocation of `processor.py` as a script. -/
inductive RunOutcome where
  | exited (code : Nat)
  | crashed
  | finished
  deriving DecidableEq

/-- `read_argv`: requires `len(sys.argv) == 2` and a readable rank-file path. On
either failure it logs an error and calls `quit()`; `quit()` raises
`SystemExit(None)`, which the Python interpreter reports as exit status 0. The
returned path is `some` exactly on the success path. -/
def readArgv (fsReadable : String → Bool) : List String → Option String
  | [_, path] => if fsReadable path then some path else none
  | _ => none

/-- The `__main__` block of `processor.py`: read argv, then open the database and
the rank file and run `RatingProcessor`. `fs` maps a readable path to the lines of
the file there. The database is only written by a finished contest run. -/
def mainRun (cfPos : CfFn) (e : EloFn) (argv : List String) (fs : String → Option (List String))
    (db : List Player) : RunOutcome × List Player :=
  match readArgv (fun p => (fs p).isSome) argv with
  | none => (RunOutcome.exited 0, db)
  | some path =>
    match fs path with
    | none => (RunOutcome.exited 0, db)
    | some lines =>
      match processContest cfPos e db lines with
      | none => (RunOutcome.crashed, db)
      | some out => (RunOutcome.finished, out)

/-- Trivial calibrator instance used to evaluate the embedding on concrete runs. -/
def cfZero : CfFn := fun _ _ _ => 0

/-- Trivial rating-update instance (keeps rating and volatility) used to evaluate
the embedding on concrete runs. -/
def eloId : EloFn := fun r v _ _ _ _ _ => (r, v)

/-- Concrete stored player used to evaluate the embedding on concrete runs. -/
def pOne : Player :=
  { usn := "P1", rating := 1500, volatility := 100, timesPlayed := 0, best := 1500,
    lastFive := 5, extra := [("name", "Ada")] }

/-- Rated copy of `pOne` under the trivial rating function, for concrete runs. -/
def pOneRated : Player :=
  { usn := "P1", rating := 1500, volatility := 100, timesPlayed := 1, best := 1500,
    lastFive := 5, extra := [("name", "Ada")] }

/-- Second stored player with the same numbers as `pOne`, for the tie witness. -/
def pTwo : Player :=
  { pOne with usn := "P2" }

/-- Read-nothing filesystem, used for the command-line counterexample. -/
def fsEmpty : String → Option (List String) :=
  fun _ => none

theorem optOr_none_right (a : Option Nat) : optOr a none = a := by
  cases a <;> rfl

theorem dictLookup_dictInsert (m : List (String × Nat)) (k : String) (v : Nat) (u : String) :
    dictLookup (dictInsert m k v) u = if k = u then some v else dictLookup m u := by
  induction m with
  | nil => simp [dictInsert, dictLookup]
  | cons kv rest ih =>
    by_cases hk : kv.1 = k
    · simp only [dictInsert, hk, if_pos, dictLookup]
      by_cases hu : k = u
      · simp [hu]
      · simp [hu, dictLookup, hk.symm ▸ hu]
    · simp only [dictInsert, hk, if_neg, dictLookup, ih, not_false_iff]
      by_cases hu : kv.1 = u
      · have : ¬ k = u := fun h => hk (h ▸ hu)
        simp [hu, this]
      · simp [hu]

theorem dictLookup_readLineRanks (usns : List String) (m : List (String × Nat)) (r : Nat)
    (u : String) :
    dictLookup (readLineRanks m usns r) u = if u ∈ usns then some r else dictLookup m u := by
  induction usns generalizing m with
  | nil => simp [readLineRanks]
  | cons t ts ih =>
    show dictLookup (readLineRanks (dictInsert m t r) ts r) u = _
    rw [ih]
    by_cases hts : u ∈ ts
    · simp [hts]
    · by_cases ht : u = t
      · simp [hts, ht, dictLookup_dictInsert]
      · have : ¬ t = u := fun h => ht h.symm
        simp [hts, ht, dictLookup_dictInsert, this]

theorem dictLookup_readContestRanksAux (lines : List String) (m : List (String × Nat))
    (r : Nat) (u : String) :
    dictLookup (readContestRanksAux lines m r) u = optOr (specRankFrom lines r u) (dictLookup m u) := by
  induction lines generalizing m r with
  | nil => simp [readContestRanksAux, specRankFrom, optOr]
  | cons line rest ih =>
    show dictLookup (readContestRanksAux rest (readLineRanks m (pySplit line) r) _) u = _
    rw [ih, dictLookup_readLineRanks]
    show _ = optOr (specRankFrom (line :: rest) r u) _
    rw [specRankFrom]
    cases hrest : specRankFrom rest (r + (pySplit line).length) u with
    | some v => simp [optOr]
    | none =>
      by_cases hmem : u ∈ pySplit line <;> simp [optOr, hmem]

/-- C2: the rank parser satisfies the tier rule: the dict built by
`read_contest_ranks` maps an identifier to exactly the rank computed by the
declarative rule `specRankFrom` with the first tier starting at rank 1 (every
identifier of a line gets the line's starting rank, the next tier starts `k`
later where `k` is the number of identifiers on the line, empty lines do not
advance the rank, and the last occurrence of a repeated identifier wins). -/
theorem rank_parser_spec (lines : List String) (u : String) :
    dictLookup (readContestRanks lines) u = specRankFrom lines 1 u := by
  rw [readContestRanks, dictLookup_readContestRanksAux]
  simp [dictLookup, optOr_none_right]

example : readContestRanks ["A", "B C", "D"] = [("A", 1), ("B", 2), ("C", 2), ("D", 4)] := by
  decide

example : readContestRanks ["A B C", "", "D E", "A"] =
    [("A", 6), ("B", 1), ("C", 1), ("D", 4), ("E", 4)] := by
  decide

/-- C10: the decay step is frame-respecting — it writes only `rating` and
`lastFive`; `usn`, `volatility`, `timesPlayed`, `best` and all remaining document
keys (`extra`: name, email, year, platform handles) are returned unchanged. -/
theorem decay_frame (p : Player) :
    (decayPlayer p).usn = p.usn ∧
    (decayPlayer p).volatility = p.volatility ∧
    (decayPlayer p).timesPlayed = p.timesPlayed ∧
    (decayPlayer p).best = p.best ∧
    (decayPlayer p).extra = p.extra := by
  refine ⟨rfl, rfl, rfl, rfl, rfl⟩

/-- C6: besides storing the rating and volatility computed by `elo.process`, the
rating update performs exactly the bookkeeping `timesPlayed + 1`,
`best = max best new_rating`, `lastFive = 5`, and touches nothing else. -/
theorem update_bookkeeping (e : EloFn) (RbVb : List (ℚ × ℚ)) (N : Nat) (cf : ℚ)
    (p : Player) (r : Nat) :
    (updatePlayer e RbVb N cf p r).rating = (e p.rating p.volatility p.timesPlayed r RbVb N cf).1 ∧
    (updatePlayer e RbVb N cf p r).volatility = (e p.rating p.volatility p.timesPlayed r RbVb N cf).2 ∧
    (updatePlayer e RbVb N cf p r).timesPlayed = p.timesPlayed + 1 ∧
    (updatePlayer e RbVb N cf p r).best = max p.best (updatePlayer e RbVb N cf p r).rating ∧
    (updatePlayer e RbVb N cf p r).lastFive = 5 ∧
    (updatePlayer e RbVb N cf p r).usn = p.usn ∧
    (updatePlayer e RbVb N cf p r).extra = p.extra := by
  refine ⟨rfl, rfl, rfl, rfl, rfl, rfl, rfl⟩

theorem decay_rating_eq (p : Player) :
    (decayPlayer p).rating =
      if 0 < p.timesPlayed then
        (if p.lastFive - 1 = 0 then p.rating * (99 / 100) else p.rating)
      else p.rating := by
  simp only [decayPlayer, apply_ite Prod.fst]

theorem decay_lastFive_eq (p : Player) :
    (decayPlayer p).lastFive =
      max 1 (if 0 < p.timesPlayed then
        (if p.lastFive - 1 = 0 then (5 : Int) else p.lastFive - 1)
      else p.lastFive) := by
  simp only [decayPlayer, apply_ite Prod.snd]

/-- C3: transition of the decay step on a stored record (`lastFive ≥ 1`, the range
the data model maintains): with `timesPlayed = 0` the record is completely
unchanged; with `timesPlayed > 0`, `lastFive` is decremented, and exactly when the
decremented value reaches 0 the rating is multiplied by 0.99 and `lastFive` is
reset to 5, otherwise the rating is unchanged. -/
theorem decay_transition (p : Player) (h : 1 ≤ p.lastFive) :
    (p.timesPlayed = 0 → decayPlayer p = p) ∧
    (0 < p.timesPlayed →
      (p.lastFive = 1 →
        (decayPlayer p).rating = p.rating * (99 / 100) ∧ (decayPlayer p).lastFive = 5) ∧
      (p.lastFive ≠ 1 →
        (decayPlayer p).rating = p.rating ∧ (decayPlayer p).lastFive = p.lastFive - 1)) := by
  refine ⟨fun h0 => ?_, fun hpos => ⟨fun h1 => ?_, fun h1 => ?_⟩⟩
  · have hnot : ¬ 0 < p.timesPlayed := by omega
    ext
    · rfl
    · rw [decay_rating_eq, if_neg hnot]
    · rfl
    · rfl
    · rfl
    · rw [decay_lastFive_eq, if_neg hnot]
      omega
    · rfl
  · constructor
    · rw [decay_rating_eq, if_pos hpos, if_pos (by omega : p.lastFive - 1 = 0)]
    · rw [decay_lastFive_eq, if_pos hpos, if_pos (by omega : p.lastFive - 1 = 0)]
      omega
  · constructor
    · rw [decay_rating_eq, if_pos hpos, if_neg (by omega : ¬ p.lastFive - 1 = 0)]
    · rw [decay_lastFive_eq, if_pos hpos, if_neg (by omega : ¬ p.lastFive - 1 = 0)]
      omega

/-- Witness for `decay_transition` at a concrete player. -/
theorem decay_transition_witness :
    (pOne.timesPlayed = 0 → decayPlayer pOne = pOne) ∧
    (0 < pOne.timesPlayed →
      (pOne.lastFive = 1 →
        (decayPlayer pOne).rating = pOne.rating * (99 / 100) ∧ (decayPlayer pOne).lastFive = 5) ∧
      (pOne.lastFive ≠ 1 →
        (decayPlayer pOne).rating = pOne.rating ∧ (decayPlayer pOne).lastFive = pOne.lastFive - 1)) :=
  decay_transition pOne (by decide)

/-- C7: decay monotonicity — on a record with nonnegative rating (ratings start at
a positive default and stay nonnegative under the 0.99 decay) the decayed rating
never increases; it strictly decreases only when the player has played before and
`lastFive` would reach 0 (`lastFive = 1`); and the stored `lastFive` never falls
below 1. -/
theorem decay_monotonicity (p : Player) (h : 0 ≤ p.rating) :
    (decayPlayer p).rating ≤ p.rating ∧
    ((decayPlayer p).rating < p.rating → 0 < p.timesPlayed ∧ p.lastFive = 1) ∧
    1 ≤ (decayPlayer p).lastFive := by
  have hlf : 1 ≤ (decayPlayer p).lastFive := by
    rw [decay_lastFive_eq]
    omega
  by_cases hpos : 0 < p.timesPlayed
  · by_cases h0 : p.lastFive - 1 = 0
    · have hr : (decayPlayer p).rating = p.rating * (99 / 100) := by
        rw [decay_rating_eq, if_pos hpos, if_pos h0]
      refine ⟨?_, fun _ => ⟨hpos, by omega⟩, hlf⟩
      rw [hr]
      calc p.rating * (99 / 100) ≤ p.rating * 1 := by
            exact mul_le_mul_of_nonneg_left (by norm_num) h
        _ = p.rating := mul_one p.rating
    · have hr : (decayPlayer p).rating = p.rating := by
        rw [decay_rating_eq, if_pos hpos, if_neg h0]
      exact ⟨hr.le, fun hc => absurd (hr ▸ hc) (lt_irrefl _), hlf⟩
  · have hr : (decayPlayer p).rating = p.rating := by
      rw [decay_rating_eq, if_neg hpos]
    exact ⟨hr.le, fun hc => absurd (hr ▸ hc) (lt_irrefl _), hlf⟩

/-- Witness for `decay_monotonicity` at a concrete player. -/
theorem decay_monotonicity_witness :
    (decayPlayer pOne).rating ≤ pOne.rating ∧
    ((decayPlayer pOne).rating < pOne.rating → 0 < pOne.timesPlayed ∧ pOne.lastFive = 1) ∧
    1 ≤ (decayPlayer pOne).lastFive :=
  decay_monotonicity pOne (by decide)

/-- C1: a contest run in which no identifier of the parsed rank file matches a
stored player has an empty filtered rank map, so `N = 0`, the calibrator produces
no calibration factor, and the whole run aborts: no list of written-back records is
produced, hence no stored record is rated or decayed. -/
theorem empty_field_aborts_run (cfPos : CfFn) (e : EloFn) (db : List Player)
    (rankFile : List String)
    (h : ∀ kv ∈ readContestRanks rankFile, ¬ ∃ p ∈ db, p.usn = kv.1) :
    contestN db rankFile = 0 ∧
    CfSpec cfPos (ratingListOf db rankFile) (volListOf db rankFile) (contestN db rankFile) = none ∧
    processContest cfPos e db rankFile = none := by
  have hfm : contestMap db rankFile = [] := by
    rw [contestMap, filteredMap, List.filter_eq_nil_iff]
    intro kv hkv
    simp only [List.any_eq_true, beq_iff_eq]
    rintro ⟨p, hp, hpe⟩
    exact h kv hkv ⟨p, hp, hpe⟩
  have hN : contestN db rankFile = 0 := by
    rw [contestN, hfm]
    rfl
  have hCf : CfSpec cfPos (ratingListOf db rankFile) (volListOf db rankFile)
      (contestN db rankFile) = none := by
    rw [CfSpec, if_pos hN]
  refine ⟨hN, hCf, ?_⟩
  rw [processContest, hCf]

/-- Witness for `empty_field_aborts_run`: one stored player, a rank file naming an
unknown identifier. -/
theorem empty_field_aborts_run_witness :
    contestN [pOne] ["X"] = 0 ∧
    CfSpec cfZero (ratingListOf [pOne] ["X"]) (volListOf [pOne] ["X"]) (contestN [pOne] ["X"]) = none ∧
    processContest cfZero eloId [pOne] ["X"] = none :=
  empty_field_aborts_run cfZero eloId [pOne] ["X"] (by decide)

theorem processCompetition_length (e : EloFn) (fm : List (String × Nat))
    (RbVb : List (ℚ × ℚ)) (N : Nat) (cf : ℚ) (rows : List Player) :
    (processCompetition e fm RbVb N cf rows).length = rows.length := by
  induction rows with
  | nil => rfl
  | cons row rest ih => simp [processCompetition, ih]

theorem processCompetition_getElem (e : EloFn) (fm : List (String × Nat))
    (RbVb : List (ℚ × ℚ)) (N : Nat) (cf : ℚ) (rows : List Player) (i : Nat) :
    (processCompetition e fm RbVb N cf rows)[i]? =
      (rows[i]?).map (stepPlayer e fm RbVb N cf) := by
  induction rows generalizing i with
  | nil => simp [processCompetition]
  | cons row rest ih =>
    cases i with
    | zero => simp [processCompetition]
    | succ n => simp [processCompetition, ih]

/-- C4: a successful contest run determines the calibration scalar, the field and
the field size once, from the pre-contest database, and every row of the written
result is its own input row passed through `stepPlayer` with those same snapshot
values — no per-player update changes what any other player's update reads, so the
outcome is independent of processing order. -/
theorem contest_snapshot_fixed (cfPos : CfFn) (e : EloFn) (db : List Player)
    (rankFile : List String) (out : List Player)
    (h : processContest cfPos e db rankFile = some out) :
    out.length = db.length ∧
    CfSpec cfPos (ratingListOf db rankFile) (volListOf db rankFile) (contestN db rankFile) =
      some (contestCf cfPos db rankFile) ∧
    ∀ i : Nat, out[i]? = (db[i]?).map
      (stepPlayer e (contestMap db rankFile) (contestRbVb db rankFile) (contestN db rankFile)
        (contestCf cfPos db rankFile)) := by
  by_cases hN : contestN db rankFile = 0
  · have hCf : CfSpec cfPos (ratingListOf db rankFile) (volListOf db rankFile)
        (contestN db rankFile) = none := by
      rw [CfSpec, if_pos hN]
    rw [processContest, hCf] at h
    exact absurd h (by simp)
  · have hCf : CfSpec cfPos (ratingListOf db rankFile) (volListOf db rankFile)
        (contestN db rankFile) = some (contestCf cfPos db rankFile) := by
      rw [CfSpec, if_neg hN, contestCf]
    rw [processContest, hCf] at h
    have hout : out = processCompetition e (contestMap db rankFile) (contestRbVb db rankFile)
        (contestN db rankFile) (contestCf cfPos db rankFile) db := by
      exact (Option.some.inj h).symm
    subst hout
    exact ⟨processCompetition_length _ _ _ _ _ _, hCf, fun i => processCompetition_getElem _ _ _ _ _ _ i⟩

/-- Witness for `contest_snapshot_fixed` on a one-player contest. -/
theorem contest_snapshot_fixed_witness :
    [pOneRated].length = [pOne].length ∧
    CfSpec cfZero (ratingListOf [pOne] ["P1"]) (volListOf [pOne] ["P1"]) (contestN [pOne] ["P1"]) =
      some (contestCf cfZero [pOne] ["P1"]) ∧
    ∀ i : Nat, [pOneRated][i]? = ([pOne][i]?).map
      (stepPlayer eloId (contestMap [pOne] ["P1"]) (contestRbVb [pOne] ["P1"])
        (contestN [pOne] ["P1"]) (contestCf cfZero [pOne] ["P1"])) :=
  contest_snapshot_fixed cfZero eloId [pOne] ["P1"] [pOneRated] (by decide)

/-- C5: tie symmetry — in a field of size at least 2, two stored rows with the same
old rating, old volatility and `timesPlayed`, ranked identically by the filtered
rank map, receive the same new rating and the same new volatility from the
competition loop. -/
theorem tie_symmetry (e : EloFn) (fm : List (String × Nat)) (RbVb : List (ℚ × ℚ))
    (N : Nat) (cf : ℚ) (rows : List Player) (i j : Nat) (p q : Player) (r : Nat)
    (hN : 2 ≤ N)
    (hi : rows[i]? = some p) (hj : rows[j]? = some q)
    (hr : p.rating = q.rating) (hv : p.volatility = q.volatility)
    (ht : p.timesPlayed = q.timesPlayed)
    (hrp : dictLookup fm p.usn = some r) (hrq : dictLookup fm q.usn = some r) :
    ∃ u w, (processCompetition e fm RbVb N cf rows)[i]? = some u ∧
      (processCompetition e fm RbVb N cf rows)[j]? = some w ∧
      u.rating = w.rating ∧ u.volatility = w.volatility := by
  refine ⟨stepPlayer e fm RbVb N cf p, stepPlayer e fm RbVb N cf q, ?_, ?_, ?_, ?_⟩
  · rw [processCompetition_getElem, hi]
    rfl
  · rw [processCompetition_getElem, hj]
    rfl
  · simp [stepPlayer, hrp, hrq, updatePlayer, hr, hv, ht]
  · simp [stepPlayer, hrp, hrq, updatePlayer, hr, hv, ht]

/-- Witness for `tie_symmetry`: two equal-prior players tied at rank 1. -/
theorem tie_symmetry_witness :
    ∃ u w, (processCompetition eloId [("P1", 1), ("P2", 1)] [(1500, 100), (1500, 100)] 2 0
        [pOne, pTwo])[0]? = some u ∧
      (processCompetition eloId [("P1", 1), ("P2", 1)] [(1500, 100), (1500, 100)] 2 0
        [pOne, pTwo])[1]? = some w ∧
      u.rating = w.rating ∧ u.volatility = w.volatility :=
  tie_symmetry eloId [("P1", 1), ("P2", 1)] [(1500, 100), (1500, 100)] 2 0 [pOne, pTwo]
    0 1 pOne pTwo 1 (by decide) rfl rfl rfl rfl rfl rfl rfl

theorem dictLookup_eq_none (m : List (String × Nat)) (u : String)
    (h : ∀ kv ∈ m, kv.1 ≠ u) : dictLookup m u = none := by
  induction m with
  | nil => rfl
  | cons kv rest ih =>
    rw [dictLookup, if_neg (h kv (List.mem_cons_self kv rest))]
    exact ih (fun kv' hkv' => h kv' (List.mem_cons_of_mem kv hkv'))

/-- C8: every identifier of the parsed rank map without a stored player record is
removed before calibration: the filtered map holds exactly the parsed entries whose
identifier matches a stored player, the field size `N` counts exactly those
surviving entries, an unknown identifier is absent from the filtered map, and a row
not found in the filtered map is decayed, never rated, by the competition loop. -/
theorem unknown_participants_filtered (db : List Player) (rankFile : List String) :
    contestN db rankFile =
      (readContestRanks rankFile).countP (fun kv => db.any (fun p => p.usn == kv.1)) ∧
    (∀ kv, kv ∈ contestMap db rankFile ↔
      kv ∈ readContestRanks rankFile ∧ ∃ p ∈ db, p.usn = kv.1) ∧
    (∀ u, (¬ ∃ p ∈ db, p.usn = u) → dictLookup (contestMap db rankFile) u = none) ∧
    (∀ e RbVb N cf row, dictLookup (contestMap db rankFile) row.usn = none →
      stepPlayer e (contestMap db rankFile) RbVb N cf row = decayPlayer row) := by
  have hmem : ∀ kv, kv ∈ contestMap db rankFile ↔
      kv ∈ readContestRanks rankFile ∧ ∃ p ∈ db, p.usn = kv.1 := by
    intro kv
    simp [contestMap, filteredMap, List.mem_filter]
  refine ⟨?_, hmem, ?_, ?_⟩
  · rw [contestN, contestMap, filteredMap, List.countP_eq_length_filter]
  · intro u hu
    refine dictLookup_eq_none _ _ (fun kv hkv hk => ?_)
    exact hu (hk ▸ ((hmem kv).mp hkv).2)
  · intro e RbVb N cf row hnone
    rw [stepPlayer, hnone]

/-- Witness for `unknown_participants_filtered`: the unknown identifier `X` is
dropped from the filtered map of a one-player database. -/
theorem unknown_participants_filtered_witness :
    dictLookup (contestMap [pOne] ["X"]) "X" = none :=
  (unknown_participants_filtered [pOne] ["X"]).2.2.1 "X" (by decide)

/-- Counterexample to C9 as stated: invoked with no rank-file argument, the script
logs an error and calls `quit()`, i.e. `SystemExit(None)`, which terminates with
exit status 0 — there is no non-zero exit status (the no-mutation half does hold). -/
theorem read_argv_exit_status_cex :
    mainRun cfZero eloId ["processor.py"] fsEmpty [] = (RunOutcome.exited 0, []) ∧
    ¬ ∃ c, c ≠ 0 ∧
      mainRun cfZero eloId ["processor.py"] fsEmpty [] = (RunOutcome.exited c, []) := by
  refine ⟨rfl, ?_⟩
  rintro ⟨c, hc, hrun⟩
  have h0 : mainRun cfZero eloId ["processor.py"] fsEmpty [] = (RunOutcome.exited 0, []) := rfl
  have : RunOutcome.exited c = RunOutcome.exited 0 := congrArg Prod.fst (hrun.symm.trans h0)
  exact hc (RunOutcome.exited.inj this)

/-- C9 amended: with a wrong argument count, or with a rank-file path that is not
readable, the invocation terminates before touching the database — no record is
mutated — but the exit status is 0 (from `quit()`), not non-zero. -/
theorem read_argv_exit_zero_no_mutation (cfPos : CfFn) (e : EloFn) (argv : List String)
    (fs : String → Option (List String)) (db : List Player)
    (h : argv.length ≠ 2 ∨ ∃ s path, argv = [s, path] ∧ fs path = none) :
    mainRun cfPos e argv fs db = (RunOutcome.exited 0, db) := by
  rcases h with h | ⟨s, path, rfl, hpath⟩
  · rcases argv with _ | ⟨a, _ | ⟨b, _ | ⟨c, rest⟩⟩⟩
    · rfl
    · rfl
    · exact absurd rfl h
    · rfl
  · simp [mainRun, readArgv, hpath]

/-- Witness for `read_argv_exit_zero_no_mutation` at a concrete bad invocation. -/
theorem read_argv_exit_zero_no_mutation_witness :
    mainRun cfZero eloId ["processor.py"] fsEmpty [pOne] = (RunOutcome.exited 0, [pOne]) :=
  read_argv_exit_zero_no_mutation cfZero eloId ["processor.py"] fsEmpty [pOne]
    (Or.inl (by decide))
